import Mathlib

/-!
# Verification of the directory bootstrap driver

A shallow embedding of the directory-manager bootstrap driver
(`bootstrap.rs` of the `tor-dirmgr` crate) and of the mock sleep
provider (`mock/time.rs` of `tor-rtcompat`), together with theorems
about the loader loop, the download retry loop, the fetch filter,
the consensus-request builder and the deadline clamp.

Wall-clock times (`SystemTime`) are modelled as natural numbers of
seconds since an arbitrary epoch; `Duration`s as natural numbers of
seconds.  Fallible Rust code (`Result<T>`) is modelled with `Except`.
The opaque `DirState` trait object is modelled as an abstract state
type `σ` together with a record of the trait methods the driver calls;
environment effects (store reads, network responses, the outcome of
the biased timer races) are supplied by explicit oracle parameters, so
each theorem quantifies over every possible behaviour of the
collaborators.
-/

namespace Bootstrap

/-- The two readiness levels of `Readiness` in the source. -/
inductive Readiness where
  | Usable
  | Complete
deriving DecidableEq, Repr

/-- Model of `tor_checkable::TimeValidityError`: the ways an object can be
untimely.  Durations are seconds. -/
inductive TimeValidityError where
  | Expired (d : Nat)
  | NotYetValid (d : Nat)
  | Unspecified
deriving DecidableEq, Repr

/-- Model of the `tor-dirmgr` `Error` type, restricted to the variants the
bootstrap driver inspects or produces; every other variant is folded into
`Other`. -/
inductive DirErr where
  | UntimelyObject (e : TimeValidityError)
  | BadUtf8FromDirectory
  | CantAdvanceState
  | Other (n : Nat)
deriving DecidableEq, Repr

/-! ## `no_more_than_a_week_from` (bootstrap.rs, lines 449–455) -/

/-- Seconds in one week: the `Duration::new(86400 * 7, 0)` of the source. -/
def oneWeek : Nat := 86400 * 7

/-- Embedding of `no_more_than_a_week_from(now, v)`: clamp `v` so that it is
no more than one week from `now`; if `v` is absent return the time one week
from `now`. -/
def no_more_than_a_week_from (now : Nat) (v : Option Nat) : Nat :=
  let one_week_later := now + oneWeek
  match v with
  | some t => min t one_week_later
  | none => one_week_later

/-! ## `fetch_multiple` (bootstrap.rs, lines 148–185)

`fetch_multiple` first builds the requests under the store lock (this step
may fail, and its failure propagates), then launches the fetches with
bounded parallelism and keeps only the useful responses.  The per-request
outcomes are supplied here as an oracle list, in arrival order, exactly as
`buffer_unordered(..).collect()` delivers them to the filtering loop. -/

/-- A directory request, identified abstractly. -/
structure ClientRequest where
  reqId : Nat
deriving DecidableEq, Repr

/-- Model of `DirResponse`: an HTTP-like status code and a body. -/
structure DirResponse where
  status_code : Nat
  body : Nat
deriving DecidableEq, Repr

/-- The filtering loop at the end of `fetch_multiple`: a successful
response is kept iff its status code is 200; any other status code is
logged and dropped; a per-request error is logged and dropped. -/
def useful_responses (responses : List (Except DirErr (ClientRequest × DirResponse))) :
    List (ClientRequest × DirResponse) :=
  responses.filterMap fun r =>
    match r with
    | .ok (request, response) =>
        if response.status_code = 200 then some (request, response) else none
    | .error _ => none

/-- Embedding of `fetch_multiple`: `mkReqs` is the outcome of
`make_requests_for_documents` under the store lock (its error propagates
through the `?`), and `fetch` gives each request's outcome. -/
def fetch_multiple (mkReqs : Except DirErr (List ClientRequest))
    (fetch : ClientRequest → Except DirErr DirResponse) :
    Except DirErr (List (ClientRequest × DirResponse)) :=
  match mkReqs with
  | .error e => .error e
  | .ok requests =>
      .ok (useful_responses (requests.map fun q =>
        match fetch q with
        | .ok resp => .ok (q, resp)
        | .error e => .error e))

/-! ## `make_consensus_request` (bootstrap.rs, lines 48–75) -/

/-- Model of the consensus metadata the store returns: the consensus
lifetime's `valid_after` instant and the sha3-256 digest of the signed
part. -/
structure ConsensusMeta where
  valid_after : Nat
  sha3_256_of_signed : Nat
deriving DecidableEq, Repr

/-- Model of `tor_dirclient::request::ConsensusRequest` as the driver
configures it: the last-consensus date set by `set_last_consensus_date`
and the digests pushed by `push_old_consensus_digest`.
`ConsensusRequest::new` leaves both empty. -/
structure ConsensusRequest where
  last_consensus_date : Option Nat
  old_consensus_digests : List Nat
deriving DecidableEq, Repr

/-- Embedding of `make_consensus_request`.  `cutoff` models
`crate::default_consensus_cutoff` (defined outside this file's sources; its
error propagates through the `?`), and `latest_meta` is the outcome of
`store.latest_consensus_meta(flavor)`.  The returned `Bool` records
whether the store error was logged as a warning. -/
def make_consensus_request (cutoff : Nat → Except DirErr Nat)
    (latest_meta : Except DirErr (Option ConsensusMeta)) (now : Nat) :
    Except DirErr (ConsensusRequest × Bool) :=
  match cutoff now with
  | .error e => .error e
  | .ok default_cutoff =>
      match latest_meta with
      | .ok (some meta) =>
          .ok ({ last_consensus_date := some (max meta.valid_after default_cutoff),
                 old_consensus_digests := [meta.sha3_256_of_signed] }, false)
      | .ok none =>
          .ok ({ last_consensus_date := some default_cutoff,
                 old_consensus_digests := [] }, false)
      | .error _ =>
          .ok ({ last_consensus_date := some default_cutoff,
                 old_consensus_digests := [] }, true)

/-! ## `load_once` (bootstrap.rs, lines 189–223)

The state's methods and the store are supplied as an environment record.
`add_from_cache` takes `&mut self` in the source, so it is modelled as
returning both its `Result<bool>` and the (possibly mutated) state. -/

/-- A document identifier, identified abstractly. -/
structure DocId where
  docId : Nat
deriving DecidableEq, Repr

/-- The environment of one `load_once` call: the state's `missing_docs`
and `add_from_cache` methods and the store read
(`load_documents_from_store` under the store lock). -/
structure LoadOnceEnv (σ : Type) where
  missing_docs : σ → List DocId
  load_from_store : List DocId → Except DirErr (List (DocId × Nat))
  add_from_cache : σ → List (DocId × Nat) → Except DirErr Bool × σ

/-- Embedding of `load_once`.  Returns the `Result<bool>` outcome, the
state after the call, and whether `dirmgr.update_status` was invoked
(which the source does exactly when the outcome is `Ok(true)`). -/
def load_once {σ : Type} (env : LoadOnceEnv σ) (state : σ) :
    Except DirErr Bool × σ × Bool :=
  let missing := env.missing_docs state
  let (outcome, state') :=
    if missing.isEmpty then
      (.ok false, state)
    else
      match env.load_from_store missing with
      | .error e => ((.error e : Except DirErr Bool), state)
      | .ok documents =>
          let (r, s') := env.add_from_cache state documents
          match r with
          | .error (.UntimelyObject (.Expired _)) =>
              -- an expired object from the cache is treated as absent
              ((.ok false : Except DirErr Bool), s')
          | other => (other, s')
  let published := match outcome with
    | .ok true => true
    | _ => false
  (outcome, state', published)

/-! ## `load` (bootstrap.rs, lines 229–254)

The loop alternates `load_once` and `advance` with a safety counter.
`load_once`'s outcome on each iteration depends on the store contents as
well as on the state, so it is supplied as an oracle indexed by the
iteration number; `can_advance` and `advance` are the state's own methods.
The source loop has no intrinsic bound (each `advance` resets the safety
counter), so the embedding is driven by explicit fuel and reports
`fuelOut` when the fuel runs out before the loop decides. -/

/-- The `DirState` methods that `load` consults. -/
structure LoadMachine (σ : Type) where
  can_advance : σ → Bool
  advance : σ → Except DirErr σ

/-- Outcome of a run of `load`: normal return, error propagation through
`?`, the `assert!(safety_counter < 100)` panic, or fuel exhaustion of the
embedding. -/
inductive LoadRes (σ : Type) where
  | ok (s : σ)
  | err (e : DirErr)
  | panicked
  | fuelOut
deriving DecidableEq, Repr

/-- Embedding of the loop body of `load`.  `o i s` is the outcome of the
`load_once` call on iteration `i` in state `s` (the changed flag and the
mutated state).  `counter` is `safety_counter`.  One unit of fuel is spent
per iteration. -/
def loadLoop {σ : Type} (M : LoadMachine σ) (o : Nat → σ → Except DirErr (Bool × σ)) :
    Nat → Nat → Nat → σ → LoadRes σ
  | _, _, 0, _ => .fuelOut
  | i, counter, fuel + 1, s =>
      match o i s with
      | .error e => .err e
      | .ok (changed, s') =>
          if M.can_advance s' then
            match M.advance s' with
            | .error e => .err e
            | .ok s'' => loadLoop M o (i + 1) 0 fuel s''
          else if !changed then
            .ok s'
          else if counter + 1 < 100 then
            loadLoop M o (i + 1) (counter + 1) fuel s'
          else
            .panicked

/-- Embedding of `load`: run the loop from iteration 0 with
`safety_counter = 0`. -/
def load {σ : Type} (M : LoadMachine σ) (o : Nat → σ → Except DirErr (Bool × σ))
    (fuel : Nat) (s : σ) : LoadRes σ :=
  loadLoop M o 0 0 fuel s

end Bootstrap

namespace MockTime

/-! ## `MockSleepProvider` (mock/time.rs)

`Instant`s and `SystemTime`s are seconds as naturals; a `Waker` is an
abstract identifier.  The `BinaryHeap<SleepEntry>` (a max-heap under the
reversed `when` order, i.e. a min-heap on `when`) is modelled as the list
of its entries; popping extracts the first entry of minimal `when`. -/

/-- An entry telling when to wake which future (`SleepEntry`). -/
structure SleepEntry where
  when : Nat
  waker : Nat
deriving DecidableEq, Repr

/-- Shared backend for the sleep provider (`SleepSchedule`). -/
structure SleepSchedule where
  instant : Nat
  wallclock : Nat
  sleepers : List SleepEntry
deriving DecidableEq, Repr

/-- Pop an entry of minimal `when` from the heap (the first such entry),
returning it and the remaining entries; `none` on the empty heap. -/
def popMin : List SleepEntry → Option (SleepEntry × List SleepEntry)
  | [] => none
  | e :: rest =>
      match popMin rest with
      | none => some (e, rest)
      | some (m, rem) =>
          if e.when ≤ m.when then some (e, rest) else some (m, e :: rem)

/-- The loop of `SleepSchedule::fire`, with fuel: repeatedly peek the
top entry; stop when the heap is empty or `now < top.when`; otherwise
pop the top entry and wake it.  Returns the entries woken, in pop order,
and the remaining heap. -/
def fireAux (now : Nat) : Nat → List SleepEntry → List SleepEntry × List SleepEntry
  | 0, l => ([], l)
  | fuel + 1, l =>
      match popMin l with
      | none => ([], l)
      | some (m, rest) =>
          if now < m.when then ([], l)
          else
            (m :: (fireAux now fuel rest).1, (fireAux now fuel rest).2)

/-- Embedding of `SleepSchedule::fire`: wake every pending entry due at
the current simulated instant.  The heap never grows during the loop, so
its size bounds the iterations. -/
def fire (now : Nat) (l : List SleepEntry) : List SleepEntry × List SleepEntry :=
  fireAux now l.length l

/-- Embedding of `MockSleepProvider::advance(dur)`: move both clocks
forward by `dur` and fire.  Returns the new schedule and the entries
woken, in wake order. -/
def advance (st : SleepSchedule) (dur : Nat) : SleepSchedule × List SleepEntry :=
  ({ instant := st.instant + dur,
     wallclock := st.wallclock + dur,
     sleepers := (fire (st.instant + dur) st.sleepers).2 },
   (fire (st.instant + dur) st.sleepers).1)

/-- Embedding of `MockSleepProvider::jump_to(new_wallclock)`: set the
wall clock only. -/
def jump_to (st : SleepSchedule) (new_wallclock : Nat) : SleepSchedule :=
  { st with wallclock := new_wallclock }

end MockTime

namespace Bootstrap

/-! ## `download` (bootstrap.rs, lines 332–441)

The driver's own control flow is embedded exactly; everything the
environment decides is an oracle:

* the `DirState` methods (`can_advance`, `is_ready`, `advance`, `reset`,
  `dl_config` reduced to its attempt count) form a `Machine`;
* the `load_once` call at the top of each `'next_state` iteration (whose
  `Ok` changed-flag the source discards, keeping only the mutated state)
  is the phase script's `loadOnce`;
* each iteration of the `'next_attempt` loop consumes one
  `AttemptEvent`, deciding the biased races: whether the reset deadline
  elapsed during the pre-attempt delay (only possible from the second
  attempt of a phase on, since the first attempt has no delay), and
  whether the attempt errored, was cut off by the reset deadline, or
  completed with some mutation of the state.  A `fatal` outcome models
  `upgrade_weak_ref` failing before the attempt.

The `on_usable` one-shot sender is modelled by the flag `armed`
(`true` iff the `Option<oneshot::Sender>` is `Some`); a send flips it to
`false`.  The run is instrumented with a `Checkpoint` per successful
`download_attempt`, recording the `is_ready` observations made right
after it and whether the sender fired there. -/

/-- The `DirState` methods consulted by `download`. -/
structure Machine (σ : Type) where
  can_advance : σ → Bool
  is_ready : σ → Readiness → Bool
  advance : σ → Except DirErr σ
  reset : σ → Except DirErr σ
  dl_config : σ → Except DirErr Nat

/-- The outcome of one iteration of the `'next_attempt` loop, as decided
by the environment. -/
inductive AttemptOutcome (σ : Type) where
  | fatal
  | err
  | timeout
  | ok (step : σ → σ)

/-- The environment's decisions for one attempt: whether the reset
deadline elapses during the pre-attempt wait, and how the attempt
itself ends. -/
structure AttemptEvent (σ : Type) where
  resetInDelay : Bool
  outcome : AttemptOutcome σ

/-- The environment's decisions for one `'next_state` phase. -/
structure PhaseScript (σ : Type) where
  loadOnce : σ → Except DirErr σ
  events : Nat → AttemptEvent σ

/-- The observations made right after one successful `download_attempt`:
the two `is_ready` checks and whether the `on_usable` sender fired
there. -/
structure Checkpoint where
  complete : Bool
  usable : Bool
  fired : Bool
deriving DecidableEq, Repr

/-- The result of a `download` run: `ok s cant` is `Ok((s, e))` with
`cant = true` iff `e = Some(Error::CantAdvanceState)` (the only error the
function ever hands back this way); `err` is an `Err` return through a
`?`; `fuelOut` means the embedding's phase fuel ran out. -/
inductive DlResult (σ : Type) where
  | ok (s : σ) (cantAdvance : Bool)
  | err
  | fuelOut
deriving DecidableEq, Repr

/-- How one phase ends: a return from `download`, or
`continue 'next_state` with a new state. -/
inductive PhaseStep (σ : Type) where
  | ret (r : DlResult σ)
  | next (s : σ)
deriving DecidableEq, Repr

/-- Embedding of the `'next_attempt` loop.  `i` is the attempt index
within the phase, `remaining` the attempts left out of
`retry_config.n_attempts()`, `armed` whether `on_usable` is still
`Some`.  Returns how the phase ends, the final `armed` flag, and the
checkpoints recorded. -/
def attemptLoop {σ : Type} (M : Machine σ) (ev : Nat → AttemptEvent σ) :
    Nat → Nat → σ → Bool → PhaseStep σ × Bool × List Checkpoint
  | _, 0, s, armed =>
      -- attempts exhausted: `return Ok((state, Some(Error::CantAdvanceState)))`
      (.ret (.ok s true), armed, [])
  | i, remaining + 1, s, armed =>
      let e := ev i
      if 0 < i ∧ e.resetInDelay then
        -- the reset deadline elapsed during the pre-attempt wait
        match M.reset s with
        | .error _ => (.ret .err, armed, [])
        | .ok s' => (.next s', armed, [])
      else
        match e.outcome with
        | .fatal => (.ret .err, armed, [])
        | .err => attemptLoop M ev (i + 1) remaining s armed
        | .timeout =>
            match M.reset s with
            | .error _ => (.ret .err, armed, [])
            | .ok s' => (.next s', armed, [])
        | .ok step =>
            let s' := step s
            if M.is_ready s' .Complete then
              -- nothing more to download: `return Ok((state, None))`
              (.ret (.ok s' false), armed, [⟨true, M.is_ready s' .Usable, false⟩])
            else
              let usable := M.is_ready s' .Usable
              let f := armed && usable
              let armed' := armed && !usable
              let cp : Checkpoint := ⟨false, usable, f⟩
              if M.can_advance s' then
                match M.advance s' with
                | .error _ => (.ret .err, armed', [cp])
                | .ok s'' => (.next s'', armed', [cp])
              else
                ((attemptLoop M ev (i + 1) remaining s' armed').1,
                 (attemptLoop M ev (i + 1) remaining s' armed').2.1,
                 cp :: (attemptLoop M ev (i + 1) remaining s' armed').2.2)

/-- Embedding of the body of one `'next_state` iteration: `dl_config`,
the preliminary `load_once`, the skip-the-downloads checks, then the
attempt loop. -/
def runPhase {σ : Type} (M : Machine σ) (ph : PhaseScript σ) (s : σ) (armed : Bool) :
    PhaseStep σ × Bool × List Checkpoint :=
  match M.dl_config s with
  | .error _ => (.ret .err, armed, [])
  | .ok n =>
      match ph.loadOnce s with
      | .error _ => (.ret .err, armed, [])
      | .ok s₁ =>
          if M.can_advance s₁ then
            match M.advance s₁ with
            | .error _ => (.ret .err, armed, [])
            | .ok s₂ => (.next s₂, armed, [])
          else if M.is_ready s₁ .Complete then
            (.ret (.ok s₁ false), armed, [])
          else
            attemptLoop M ph.events 0 n s₁ armed

/-- Embedding of the `'next_state` loop of `download`: one unit of fuel
per phase, phase `p` scripted by `phases p`. -/
def downloadLoop {σ : Type} (M : Machine σ) (phases : Nat → PhaseScript σ) :
    Nat → Nat → σ → Bool → DlResult σ × Bool × List Checkpoint
  | _, 0, _, armed => (.fuelOut, armed, [])
  | p, fuel + 1, s, armed =>
      match runPhase M (phases p) s armed with
      | (.ret r, armed', tr) => (r, armed', tr)
      | (.next s', armed', tr) =>
          ((downloadLoop M phases (p + 1) fuel s' armed').1,
           (downloadLoop M phases (p + 1) fuel s' armed').2.1,
           tr ++ (downloadLoop M phases (p + 1) fuel s' armed').2.2)

/-- Embedding of `download`: run the phase loop from phase 0.  `armed`
is `on_usable.is_some()` at entry. -/
def download {σ : Type} (M : Machine σ) (phases : Nat → PhaseScript σ)
    (fuel : Nat) (s : σ) (armed : Bool) : DlResult σ × Bool × List Checkpoint :=
  downloadLoop M phases 0 fuel s armed

/-- The number of times the `on_usable` sender was invoked during a run,
read off the instrumentation. -/
def firedCount (tr : List Checkpoint) : Nat :=
  (tr.filter fun cp => cp.fired).length

/-- The readiness observations of a checkpoint, without the firing
flag. -/
def obsOf (cp : Checkpoint) : Bool × Bool :=
  (cp.complete, cp.usable)

/-- Reference marker: given the readiness observations of the
checkpoints in order, mark the one where a still-armed sender fires,
namely the first observation that is usable but not complete. -/
def markFirst : Bool → List (Bool × Bool) → List Bool
  | _, [] => []
  | armed, (c, u) :: rest =>
      (armed && (u && !c)) :: markFirst (armed && !(u && !c)) rest

/-- Whether the sender is still armed after the given observations. -/
def stillArmed (armed : Bool) (l : List (Bool × Bool)) : Bool :=
  armed && l.all fun p => !(p.2 && !p.1)

/-- The run predicate of a stalled phase: every attempt in the retry
schedule completes (successfully or with a logged error) without the
state becoming `Complete`, without `can_advance` becoming true, and
without the reset deadline elapsing.  `i` is the attempt index, and the
recursion tracks the state exactly as the attempt loop does. -/
def attemptsStall {σ : Type} (M : Machine σ) (ev : Nat → AttemptEvent σ) :
    Nat → Nat → σ → Bool
  | _, 0, _ => true
  | i, remaining + 1, s =>
      let e := ev i
      if 0 < i ∧ e.resetInDelay then false
      else
        match e.outcome with
        | .fatal => false
        | .err => attemptsStall M ev (i + 1) remaining s
        | .timeout => false
        | .ok step =>
            let s' := step s
            !(M.is_ready s' .Complete) && !(M.can_advance s') &&
              attemptsStall M ev (i + 1) remaining s'

/-! ### Concrete machines used to evaluate the theorems on explicit inputs -/

/-- A two-valued directory state: `false` before the first successful
attempt, `true` after it.  In state `true` the state is both `Usable` and
`Complete`. -/
def bothReadyMachine : Machine Bool where
  can_advance := fun _ => false
  is_ready := fun s _ => s
  advance := fun s => .ok s
  reset := fun _ => .ok false
  dl_config := fun _ => .ok 3

/-- Phase scripts for `bothReadyMachine`: the cache loads nothing, and
every attempt succeeds and moves the state to `true`. -/
def bothReadyPhases : Nat → PhaseScript Bool := fun _ =>
  { loadOnce := fun s => .ok s
    events := fun _ => { resetInDelay := false, outcome := .ok fun _ => true } }

/-- A state machine that never becomes ready and never advances. -/
def stallMachine : Machine Unit where
  can_advance := fun _ => false
  is_ready := fun _ _ => false
  advance := fun s => .ok s
  reset := fun s => .ok s
  dl_config := fun _ => .ok 3

/-- Phase scripts for `stallMachine`: the cache loads nothing and every
attempt completes without making the state ready. -/
def stallPhases : Nat → PhaseScript Unit := fun _ =>
  { loadOnce := fun s => .ok s
    events := fun _ => { resetInDelay := false, outcome := .ok fun s => s } }

/-- A loader state machine that can never advance. -/
def stuckLoadMachine : LoadMachine Unit where
  can_advance := fun _ => false
  advance := fun s => .ok s

/-- A `load_once` oracle that never reports a change. -/
def quietOracle : Nat → Unit → Except DirErr (Bool × Unit) := fun _ _ => .ok (false, ())

/-- A loader state machine, over states counting the iterations seen,
that can never advance. -/
def countingLoadMachine : LoadMachine Nat where
  can_advance := fun _ => false
  advance := fun s => .ok s

/-- A `load_once` oracle that always reports a change without making
progress. -/
def busyOracle : Nat → Unit → Except DirErr (Bool × Unit) := fun _ _ => .ok (true, ())

/-- A concrete `load_once` environment over states `Nat`: one document is
missing, the store holds it, and `add_from_cache` reports it as expired
past its time validity after mutating the state. -/
def expiredCacheEnv : LoadOnceEnv Nat where
  missing_docs := fun _ => [⟨7⟩]
  load_from_store := fun _ => .ok [(⟨7⟩, 42)]
  add_from_cache := fun s _ => (.error (.UntimelyObject (.Expired 3)), s + 1)

end Bootstrap

namespace Bootstrap

/-! ## Theorems -/

/-- C7: `no_more_than_a_week_from(now, Some(t))` equals
`min(t, now + 7 days)` and `no_more_than_a_week_from(now, None)` equals
`now + 7 days`; consequently the result is always at most `now + 7 days`,
and equals the given time whenever it is at most `now + 7 days`. -/
theorem no_more_than_a_week_from_clamp (now t : Nat) :
    no_more_than_a_week_from now (some t) = min t (now + oneWeek) ∧
    no_more_than_a_week_from now none = now + oneWeek ∧
    no_more_than_a_week_from now (some t) ≤ now + oneWeek ∧
    no_more_than_a_week_from now none ≤ now + oneWeek ∧
    (t ≤ now + oneWeek → no_more_than_a_week_from now (some t) = t) := by
  refine ⟨rfl, rfl, ?_, ?_, fun h => ?_⟩
  · exact min_le_right _ _
  · exact le_refl _
  · simp [no_more_than_a_week_from]
    omega

/-- Witness for `no_more_than_a_week_from_clamp` at `now = 0`, `t = 5`. -/
theorem no_more_than_a_week_from_clamp_witness :
    5 ≤ 0 + oneWeek ∧ no_more_than_a_week_from 0 (some 5) = 5 :=
  ⟨by decide, (no_more_than_a_week_from_clamp 0 5).2.2.2.2 (by decide)⟩

/-- C9: `no_more_than_a_week_from` imposes no lower bound: for every `t`
strictly earlier than `now`, `no_more_than_a_week_from(now, Some(t))`
returns `t` itself, a time already in the past. -/
theorem no_more_than_a_week_from_past (now t : Nat) (h : t < now) :
    no_more_than_a_week_from now (some t) = t ∧
    no_more_than_a_week_from now (some t) < now := by
  have h1 : no_more_than_a_week_from now (some t) = t := by
    simp [no_more_than_a_week_from]
    omega
  refine ⟨h1, ?_⟩
  rw [h1]
  exact h

/-- Witness for `no_more_than_a_week_from_past` at `now` one day past the
epoch and `t` the epoch itself, as in the source's `test::week`. -/
theorem no_more_than_a_week_from_past_witness :
    (0 : Nat) < 86400 ∧ no_more_than_a_week_from 86400 (some 0) = 0 :=
  ⟨by decide, (no_more_than_a_week_from_past 86400 0 (by decide)).1⟩

/-- C5: `fetch_multiple` returns exactly those `(request, response)`
pairs whose fetch succeeded with status code 200; other status codes and
per-request errors are dropped, and neither makes `fetch_multiple`
itself return an error. -/
theorem fetch_multiple_filters_to_200 (requests : List ClientRequest)
    (fetch : ClientRequest → Except DirErr DirResponse)
    (request : ClientRequest) (response : DirResponse) :
    ∃ l, fetch_multiple (.ok requests) fetch = .ok l ∧
      ((request, response) ∈ l ↔
        request ∈ requests ∧ fetch request = .ok response ∧
          response.status_code = 200) := by
  refine ⟨_, rfl, ?_⟩
  simp only [useful_responses, List.mem_filterMap, List.mem_map]
  constructor
  · rintro ⟨r, ⟨q, hq, rfl⟩, hr⟩
    rcases hfetch : fetch q with e | resp
    · rw [hfetch] at hr
      simp at hr
    · rw [hfetch] at hr
      by_cases h200 : resp.status_code = 200
      · simp [h200] at hr
        rcases hr with ⟨rfl, rfl⟩
        exact ⟨hq, hfetch, h200⟩
      · simp [h200] at hr
  · rintro ⟨hq, hfetch, h200⟩
    refine ⟨.ok (request, response), ⟨request, hq, ?_⟩, ?_⟩
    · rw [hfetch]
    · simp [h200]

/-- C6: `make_consensus_request` consults `store.latest_consensus_meta`:
with metadata present it sets the last-consensus date to
`max(valid_after, default_cutoff(now))` and attaches the prior signed
digest; with metadata absent or a store read error (only logged) it sets
the date to `default_cutoff(now)` and attaches no digest, never failing
because of the store read. -/
theorem make_consensus_request_spec (cutoff : Nat → Except DirErr Nat)
    (latest_meta : Except DirErr (Option ConsensusMeta)) (now c : Nat)
    (hc : cutoff now = .ok c) :
    (∀ meta, latest_meta = .ok (some meta) →
       make_consensus_request cutoff latest_meta now =
         .ok ({ last_consensus_date := some (max meta.valid_after c),
                old_consensus_digests := [meta.sha3_256_of_signed] }, false)) ∧
    (latest_meta = .ok none →
       make_consensus_request cutoff latest_meta now =
         .ok ({ last_consensus_date := some c, old_consensus_digests := [] }, false)) ∧
    (∀ e, latest_meta = .error e →
       make_consensus_request cutoff latest_meta now =
         .ok ({ last_consensus_date := some c, old_consensus_digests := [] }, true)) := by
  refine ⟨?_, ?_, ?_⟩ <;> intros <;> subst_vars <;> simp [make_consensus_request, hc]

/-- Witness for `make_consensus_request_spec`: cutoff 10, stored
metadata with `valid_after = 25` and digest 99. -/
theorem make_consensus_request_spec_witness :
    make_consensus_request (fun _ => .ok 10) (.ok (some ⟨25, 99⟩)) 0 =
      .ok ({ last_consensus_date := some (max 25 10),
             old_consensus_digests := [99] }, false) :=
  (make_consensus_request_spec (fun _ => .ok 10) (.ok (some ⟨25, 99⟩)) 0 10
    rfl).1 ⟨25, 99⟩ rfl

/-- C4: `load_once` coerces a cache entry expired past its time validity
to `Ok(false)` instead of an error; every other `add_from_cache` error is
propagated unchanged; and the bootstrap status is published exactly when
the outcome is `Ok(true)`. -/
theorem load_once_expired_coerced {σ : Type} (env : LoadOnceEnv σ) (s : σ) :
    (∀ docs s' d, env.missing_docs s ≠ [] →
       env.load_from_store (env.missing_docs s) = .ok docs →
       env.add_from_cache s docs = (.error (.UntimelyObject (.Expired d)), s') →
       load_once env s = (.ok false, s', false)) ∧
    (∀ docs s' e, env.missing_docs s ≠ [] →
       env.load_from_store (env.missing_docs s) = .ok docs →
       env.add_from_cache s docs = (.error e, s') →
       (∀ d, e ≠ .UntimelyObject (.Expired d)) →
       load_once env s = (.error e, s', false)) ∧
    ((load_once env s).2.2 = true ↔ (load_once env s).1 = .ok true) := by
  refine ⟨?_, ?_, ?_⟩
  · intro docs s' d hm hload hadd
    simp [load_once, List.isEmpty_iff, hm, hload, hadd]
  · intro docs s' e hm hload hadd hne
    rcases e with te | _ | _ | n
    · rcases te with d | d | _
      · exact absurd rfl (hne d)
      · simp [load_once, List.isEmpty_iff, hm, hload, hadd]
      · simp [load_once, List.isEmpty_iff, hm, hload, hadd]
    · simp [load_once, List.isEmpty_iff, hm, hload, hadd]
    · simp [load_once, List.isEmpty_iff, hm, hload, hadd]
    · simp [load_once, List.isEmpty_iff, hm, hload, hadd]
  · have hpub : (load_once env s).2.2 =
        match (load_once env s).1 with
        | .ok true => true
        | _ => false := rfl
    rw [hpub]
    rcases h : (load_once env s).1 with e | b
    · simp
    · cases b <;> simp

/-- Witness for `load_once_expired_coerced`: the concrete environment
`expiredCacheEnv`, whose cache entry is expired, yields `Ok(false)` with
the mutated state and no status publication. -/
theorem load_once_expired_coerced_witness :
    load_once expiredCacheEnv 0 = (.ok false, 1, false) :=
  (load_once_expired_coerced expiredCacheEnv 0).1 [(⟨7⟩, 42)] 1 3
    (by decide) rfl rfl

/-- Helper: every `Ok` return of the `load` loop happens at the `break`,
where `can_advance` was just observed false. -/
theorem loadLoop_ok_cannot_advance {σ : Type} (M : LoadMachine σ)
    (o : Nat → σ → Except DirErr (Bool × σ)) :
    ∀ fuel i counter s s', loadLoop M o i counter fuel s = .ok s' →
      M.can_advance s' = false := by
  intro fuel
  induction fuel with
  | zero =>
    intro i counter s s' h
    simp [loadLoop] at h
  | succ fuel ih =>
    intro i counter s s' h
    simp only [loadLoop] at h
    split at h
    · simp at h
    · split at h
      · split at h
        · simp at h
        · exact ih _ _ _ _ h
      · split at h
        · rename_i hca hch
          obtain rfl : _ = s' := by simpa using h
          simpa using hca
        · split at h
          · exact ih _ _ _ _ h
          · simp at h

/-- Helper: if the state can never advance, the loop cannot run out of
fuel once the fuel covers the at most `100 - counter` iterations the
safety counter still allows. -/
theorem loadLoop_no_advance_no_fuelOut {σ : Type} (M : LoadMachine σ)
    (o : Nat → σ → Except DirErr (Bool × σ))
    (hadv : ∀ t, M.can_advance t = false) :
    ∀ fuel counter i s, counter < 100 → 100 - counter ≤ fuel →
      loadLoop M o i counter fuel s ≠ .fuelOut := by
  intro fuel
  induction fuel with
  | zero =>
    intro counter i s hlt hle
    omega
  | succ fuel ih =>
    intro counter i s hlt hle
    simp only [loadLoop]
    rcases o i s with e | ⟨changed, s₁⟩
    · simp
    · simp only [hadv s₁, Bool.false_eq_true, if_false]
      cases changed
      · simp
      · simp only [Bool.not_true, Bool.false_eq_true, if_false]
        by_cases hc : counter + 1 < 100
        · rw [if_pos hc]
          exact ih (counter + 1) (i + 1) s₁ hc (by omega)
        · rw [if_neg hc]
          simp

/-- Helper: if the state can never advance and every `load_once` call
reports `changed = true` while leaving the state in place, the loop hits
the safety assertion. -/
theorem loadLoop_busy_panics {σ : Type} (M : LoadMachine σ)
    (o : Nat → σ → Except DirErr (Bool × σ))
    (hadv : ∀ t, M.can_advance t = false)
    (ho : ∀ i t, o i t = .ok (true, t)) :
    ∀ fuel counter i s, counter < 100 → 100 - counter ≤ fuel →
      loadLoop M o i counter fuel s = .panicked := by
  intro fuel
  induction fuel with
  | zero =>
    intro counter i s hlt hle
    omega
  | succ fuel ih =>
    intro counter i s hlt hle
    simp only [loadLoop, ho i s, hadv s, Bool.false_eq_true, if_false,
      Bool.not_true]
    by_cases hc : counter + 1 < 100
    · rw [if_pos hc]
      exact ih (counter + 1) (i + 1) s hc (by omega)
    · rw [if_neg hc]

/-- C3 (amended): when `can_advance` never becomes true, `load`
terminates within the safety bound: with fuel for 100 iterations it never
runs out; if in addition every `load_once` reports `changed = true` in
the same state, the 100-iteration safety assertion fires (a panic); and
if neither `changed` nor `can_advance` ever becomes true, the loop exits
normally on its very first iteration, returning the state — no assertion
is involved. -/
theorem load_no_advance_terminates {σ : Type} (M : LoadMachine σ)
    (o : Nat → σ → Except DirErr (Bool × σ)) (fuel : Nat) (s : σ)
    (hadv : ∀ t, M.can_advance t = false) :
    (100 ≤ fuel → load M o fuel s ≠ .fuelOut) ∧
    ((∀ i t, o i t = .ok (true, t)) → 100 ≤ fuel →
       load M o fuel s = .panicked) ∧
    ((∀ i t, o i t = .ok (false, t)) → 1 ≤ fuel → load M o fuel s = .ok s) := by
  refine ⟨?_, ?_, ?_⟩
  · intro hfuel
    exact loadLoop_no_advance_no_fuelOut M o hadv fuel 0 0 s (by omega) (by omega)
  · intro ho hfuel
    exact loadLoop_busy_panics M o hadv ho fuel 0 0 s (by omega) (by omega)
  · intro ho hfuel
    obtain ⟨f, rfl⟩ : ∃ f, fuel = f + 1 := ⟨fuel - 1, by omega⟩
    simp [load, loadLoop, ho 0 s, hadv]

/-- Witness for `load_no_advance_terminates`: the never-advancing,
never-changing loader exits normally with the initial state. -/
theorem load_no_advance_terminates_witness :
    load stuckLoadMachine quietOracle 5 () = .ok () :=
  (load_no_advance_terminates stuckLoadMachine quietOracle 5 ()
    (fun _ => rfl)).2.2 (fun _ _ => rfl) (by decide)

/-- C3 counterexample: with an oracle on which neither `changed` nor
`can_advance` ever becomes true, `load` (given fuel for the full 100
iterations) exits normally on the first iteration via the `break`; it
does not terminate via the bug assertion, contrary to the claim. -/
theorem load_no_progress_exits_normally_counterexample :
    load stuckLoadMachine quietOracle 100 () = .ok () ∧
    load stuckLoadMachine quietOracle 100 () ≠ .panicked := by
  have h1 : load stuckLoadMachine quietOracle 100 () = .ok () := rfl
  refine ⟨h1, ?_⟩
  rw [h1]
  simp

/-- C10: whenever `load` returns `Ok(state')`, the returned state
satisfies `can_advance() == false`: the loop exits normally only in an
iteration where `can_advance` was observed false and `load_once`
reported no change. -/
theorem load_ok_cannot_advance {σ : Type} (M : LoadMachine σ)
    (o : Nat → σ → Except DirErr (Bool × σ)) (fuel : Nat) (s s' : σ)
    (h : load M o fuel s = .ok s') : M.can_advance s' = false :=
  loadLoop_ok_cannot_advance M o fuel 0 0 s s' h

/-- Witness for `load_ok_cannot_advance` on a concrete run that returns
`Ok`. -/
theorem load_ok_cannot_advance_witness :
    load stuckLoadMachine quietOracle 100 () = .ok () ∧
    stuckLoadMachine.can_advance () = false :=
  ⟨rfl, load_ok_cannot_advance stuckLoadMachine quietOracle 100 () () rfl⟩

end Bootstrap

namespace MockTime

/-- Helper: `popMin` returns `none` only on the empty heap. -/
theorem popMin_eq_none {l : List SleepEntry} (h : popMin l = none) : l = [] := by
  cases l with
  | nil => rfl
  | cons e rest =>
    simp only [popMin] at h
    rcases hp : popMin rest with _ | ⟨m, rem⟩ <;> rw [hp] at h
    · simp at h
    · by_cases hle : e.when ≤ m.when <;> simp [hle] at h

/-- Helper: popping rearranges the heap without losing or adding
entries. -/
theorem popMin_perm : ∀ (l : List SleepEntry) (m : SleepEntry)
    (rest : List SleepEntry), popMin l = some (m, rest) → l.Perm (m :: rest) := by
  intro l
  induction l with
  | nil =>
    intro m rest h
    simp [popMin] at h
  | cons e tail ih =>
    intro m rest h
    simp only [popMin] at h
    rcases hp : popMin tail with _ | ⟨m', rem⟩ <;> rw [hp] at h <;> dsimp only at h
    · simp only [Option.some.injEq, Prod.mk.injEq] at h
      obtain ⟨rfl, rfl⟩ := h
      exact List.Perm.refl _
    · by_cases hle : e.when ≤ m'.when
      · rw [if_pos hle] at h
        simp only [Option.some.injEq, Prod.mk.injEq] at h
        obtain ⟨rfl, rfl⟩ := h
        exact List.Perm.refl _
      · rw [if_neg hle] at h
        simp only [Option.some.injEq, Prod.mk.injEq] at h
        obtain ⟨rfl, rfl⟩ := h
        exact ((ih m' rem hp).cons e).trans (List.Perm.swap m' e rem)

/-- Helper: the popped entry has the minimal deadline of the heap. -/
theorem popMin_min : ∀ (l : List SleepEntry) (m : SleepEntry)
    (rest : List SleepEntry), popMin l = some (m, rest) →
    ∀ x ∈ l, m.when ≤ x.when := by
  intro l
  induction l with
  | nil =>
    intro m rest h
    simp [popMin] at h
  | cons e tail ih =>
    intro m rest h x hx
    simp only [popMin] at h
    rcases hp : popMin tail with _ | ⟨m', rem⟩ <;> rw [hp] at h <;> dsimp only at h
    · have htail : tail = [] := popMin_eq_none hp
      simp only [Option.some.injEq, Prod.mk.injEq] at h
      obtain ⟨rfl, rfl⟩ := h
      subst htail
      simp only [List.mem_singleton] at hx
      subst hx
      exact le_refl _
    · by_cases hle : e.when ≤ m'.when
      · rw [if_pos hle] at h
        simp only [Option.some.injEq, Prod.mk.injEq] at h
        obtain ⟨rfl, rfl⟩ := h
        rcases List.mem_cons.mp hx with rfl | hx
        · exact le_refl _
        · exact le_trans hle (ih m' rem hp x hx)
      · rw [if_neg hle] at h
        simp only [Option.some.injEq, Prod.mk.injEq] at h
        obtain ⟨rfl, rfl⟩ := h
        rcases List.mem_cons.mp hx with rfl | hx
        · exact Nat.le_of_not_lt (fun hlt => hle (Nat.le_of_lt hlt))
        · exact ih m' rem hp x hx

/-- Helper: the firing loop wakes exactly the due entries, in
nondecreasing deadline order, and leaves exactly the not-yet-due ones
queued. -/
theorem fireAux_spec (now : Nat) :
    ∀ (fuel : Nat) (l : List SleepEntry), l.length ≤ fuel →
      l.Perm ((fireAux now fuel l).1 ++ (fireAux now fuel l).2) ∧
      (∀ e ∈ (fireAux now fuel l).1, e.when ≤ now) ∧
      (∀ e ∈ (fireAux now fuel l).2, now < e.when) ∧
      (fireAux now fuel l).1.Pairwise (fun a b => a.when ≤ b.when) := by
  intro fuel
  induction fuel with
  | zero =>
    intro l hl
    have hnil : l = [] := List.length_eq_zero.mp (Nat.le_zero.mp hl)
    subst hnil
    simp [fireAux]
  | succ fuel ih =>
    intro l hl
    rcases hp : popMin l with _ | ⟨m, rest⟩
    · have hnil : l = [] := popMin_eq_none hp
      subst hnil
      simp [fireAux, popMin]
    · have hperm := popMin_perm l m rest hp
      have hmin := popMin_min l m rest hp
      have hlen : rest.length + 1 = l.length := by
        simpa using hperm.length_eq.symm
      by_cases hnow : now < m.when
      · simp only [fireAux, hp, if_pos hnow]
        refine ⟨by simp, by simp, ?_, by simp⟩
        intro e he
        exact lt_of_lt_of_le hnow (hmin e he)
      · simp only [fireAux, hp, if_neg hnow]
        obtain ⟨ihp, ihw, ihr, ihs⟩ := ih rest (by omega)
        have hmem : ∀ e ∈ (fireAux now fuel rest).1, e ∈ l := by
          intro e he
          have : e ∈ rest := ihp.symm.subset (List.mem_append_left _ he)
          exact hperm.symm.subset (List.mem_cons_of_mem m this)
        refine ⟨?_, ?_, ihr, ?_⟩
        · exact hperm.trans (ihp.cons m)
        · intro e he
          rcases List.mem_cons.mp he with rfl | he
          · exact Nat.le_of_not_lt hnow
          · exact ihw e he
        · refine List.Pairwise.cons ?_ ihs
          intro e he
          exact hmin e (hmem e he)

/-- C8: `advance(dur)` increases both the simulated monotonic instant
and the wall clock by exactly `dur`, wakes exactly the queued sleepers
whose deadline is at most the new instant, in earliest-deadline-first
order, and leaves exactly the not-yet-due sleepers queued; `jump_to`
sets only the wall clock, leaving the instant and the pending-sleeper
queue unchanged. -/
theorem advance_and_jump_spec (st : SleepSchedule) (dur : Nat) (w : Nat) :
    (advance st dur).1.instant = st.instant + dur ∧
    (advance st dur).1.wallclock = st.wallclock + dur ∧
    st.sleepers.Perm ((advance st dur).2 ++ (advance st dur).1.sleepers) ∧
    (∀ e ∈ (advance st dur).2, e.when ≤ st.instant + dur) ∧
    (∀ e ∈ (advance st dur).1.sleepers, st.instant + dur < e.when) ∧
    (advance st dur).2.Pairwise (fun a b => a.when ≤ b.when) ∧
    (jump_to st w).wallclock = w ∧
    (jump_to st w).instant = st.instant ∧
    (jump_to st w).sleepers = st.sleepers := by
  obtain ⟨hp, hw, hr, hs⟩ :=
    fireAux_spec (st.instant + dur) st.sleepers.length st.sleepers (le_refl _)
  exact ⟨rfl, rfl, hp, hw, hr, hs, rfl, rfl, rfl⟩

end MockTime

namespace Bootstrap

/-- Helper: a disarmed sender never fires. -/
theorem markFirst_disarmed (l : List (Bool × Bool)) :
    markFirst false l = l.map fun _ => false := by
  induction l with
  | nil => rfl
  | cons p rest ih =>
    cases p with
    | mk c u => simp [markFirst, ih]

/-- Helper: a disarmed marker records no firing at all. -/
theorem markFirst_disarmed_no_fire (l : List (Bool × Bool)) :
    (markFirst false l).filter id = [] := by
  induction l with
  | nil => rfl
  | cons p rest ih =>
    cases p with
    | mk c u => simp [markFirst, ih]

/-- Helper: consuming one observation re-arms `stillArmed` exactly as
the marker does. -/
theorem stillArmed_cons (a c u : Bool) (l : List (Bool × Bool)) :
    stillArmed a ((c, u) :: l) = stillArmed (a && !(u && !c)) l := by
  simp [stillArmed, Bool.and_assoc]

/-- Helper: the marker distributes over concatenated observation lists,
re-armed by `stillArmed`. -/
theorem markFirst_append (a : Bool) (l₁ l₂ : List (Bool × Bool)) :
    markFirst a (l₁ ++ l₂) = markFirst a l₁ ++ markFirst (stillArmed a l₁) l₂ := by
  induction l₁ generalizing a with
  | nil => simp [markFirst, stillArmed]
  | cons p rest ih =>
    cases p with
    | mk c u => simp [markFirst, ih, stillArmed_cons]

/-- Helper: the marker marks at most one observation, and none when the
sender is disarmed. -/
theorem markFirst_at_most_one (l : List (Bool × Bool)) :
    ∀ a : Bool, ((markFirst a l).filter id).length ≤ if a then 1 else 0 := by
  induction l with
  | nil =>
    intro a
    cases a <;> simp [markFirst]
  | cons p rest ih =>
    intro a
    cases p with
    | mk c u =>
      cases a
      · simp [markFirst, markFirst_disarmed_no_fire]
      · cases hu : u <;> cases hc : c
        · simpa [markFirst] using ih true
        · simpa [markFirst] using ih true
        · simp [markFirst, markFirst_disarmed_no_fire]
        · simpa [markFirst] using ih true

/-- Helper: the fired flags recorded by the attempt loop are exactly the
marker applied to its readiness observations, and the sender flag it
returns is the corresponding re-arming. -/
theorem attemptLoop_trace {σ : Type} (M : Machine σ) (ev : Nat → AttemptEvent σ) :
    ∀ (remaining i : Nat) (s : σ) (armed : Bool),
      ((attemptLoop M ev i remaining s armed).2.2.map fun cp => cp.fired) =
        markFirst armed ((attemptLoop M ev i remaining s armed).2.2.map obsOf) ∧
      (attemptLoop M ev i remaining s armed).2.1 =
        stillArmed armed ((attemptLoop M ev i remaining s armed).2.2.map obsOf) := by
  intro remaining
  induction remaining with
  | zero =>
    intro i s armed
    simp [attemptLoop, markFirst, stillArmed]
  | succ remaining ih =>
    intro i s armed
    simp only [attemptLoop]
    by_cases hcond : 0 < i ∧ (ev i).resetInDelay = true
    · rw [if_pos hcond]
      rcases M.reset s with e | s' <;> simp [markFirst, stillArmed]
    · rw [if_neg hcond]
      rcases (ev i).outcome with _ | _ | _ | step <;> dsimp only
      · simp [markFirst, stillArmed]
      · exact ih (i + 1) s armed
      · rcases M.reset s with e | s' <;> simp [markFirst, stillArmed]
      · by_cases hc : M.is_ready (step s) .Complete = true
        · rw [if_pos hc]
          simp [markFirst, stillArmed, obsOf]
        · rw [if_neg hc]
          by_cases hadv : M.can_advance (step s) = true
          · rw [if_pos hadv]
            rcases M.advance (step s) with e | s'' <;>
              cases armed <;> cases hu : M.is_ready (step s) .Usable <;>
                simp [markFirst, stillArmed, obsOf, hu]
          · rw [if_neg hadv]
            obtain ⟨ih1, ih2⟩ :=
              ih (i + 1) (step s) (armed && !M.is_ready (step s) .Usable)
            refine ⟨?_, ?_⟩
            · simp only [List.map_cons, markFirst, obsOf, Bool.not_false,
                Bool.and_true]
              rw [ih1]
            · simp only [List.map_cons, obsOf]
              rw [stillArmed_cons]
              simp only [Bool.not_false, Bool.and_true]
              exact ih2

/-- Helper: `stillArmed` composes over concatenated observation
lists. -/
theorem stillArmed_append (a : Bool) (l₁ l₂ : List (Bool × Bool)) :
    stillArmed a (l₁ ++ l₂) = stillArmed (stillArmed a l₁) l₂ := by
  simp [stillArmed, List.all_append, Bool.and_assoc]

/-- Helper: the phase preamble records no checkpoint and passes the
sender through; its attempt loop obeys the marker. -/
theorem runPhase_trace {σ : Type} (M : Machine σ) (ph : PhaseScript σ)
    (s : σ) (armed : Bool) :
    ((runPhase M ph s armed).2.2.map fun cp => cp.fired) =
      markFirst armed ((runPhase M ph s armed).2.2.map obsOf) ∧
    (runPhase M ph s armed).2.1 =
      stillArmed armed ((runPhase M ph s armed).2.2.map obsOf) := by
  simp only [runPhase]
  rcases M.dl_config s with e | n <;> dsimp only
  · simp [markFirst, stillArmed]
  · rcases ph.loadOnce s with e | s₁ <;> dsimp only
    · simp [markFirst, stillArmed]
    · by_cases hadv : M.can_advance s₁ = true
      · rw [if_pos hadv]
        rcases M.advance s₁ with e | s₂ <;> simp [markFirst, stillArmed]
      · rw [if_neg hadv]
        by_cases hc : M.is_ready s₁ .Complete = true
        · rw [if_pos hc]
          simp [markFirst, stillArmed]
        · rw [if_neg hc]
          exact attemptLoop_trace M ph.events n 0 s₁ armed

/-- Helper: over the whole phase loop, the fired flags are the marker of
the observations and the returned sender flag is the re-arming. -/
theorem downloadLoop_trace {σ : Type} (M : Machine σ)
    (phases : Nat → PhaseScript σ) :
    ∀ (fuel p : Nat) (s : σ) (armed : Bool),
      ((downloadLoop M phases p fuel s armed).2.2.map fun cp => cp.fired) =
        markFirst armed ((downloadLoop M phases p fuel s armed).2.2.map obsOf) ∧
      (downloadLoop M phases p fuel s armed).2.1 =
        stillArmed armed ((downloadLoop M phases p fuel s armed).2.2.map obsOf) := by
  intro fuel
  induction fuel with
  | zero =>
    intro p s armed
    simp [downloadLoop, markFirst, stillArmed]
  | succ fuel ih =>
    intro p s armed
    simp only [downloadLoop]
    rcases hr : runPhase M (phases p) s armed with ⟨stp, armed', tr⟩
    obtain ⟨h1, h2⟩ := runPhase_trace M (phases p) s armed
    rw [hr] at h1 h2
    dsimp only at h1 h2
    rcases stp with r | s' <;> dsimp only
    · exact ⟨h1, h2⟩
    · obtain ⟨ih1, ih2⟩ := ih (p + 1) s' armed'
      constructor
      · rw [List.map_append, List.map_append, markFirst_append, ← h1, ← h2, ← ih1]
      · rw [List.map_append, stillArmed_append, ← h2, ih2]

/-- Helper: the number of fired checkpoints equals the number of marked
flags. -/
theorem firedCount_eq_filter (tr : List Checkpoint) :
    firedCount tr = (((tr.map fun cp => cp.fired)).filter id).length := by
  induction tr with
  | nil => rfl
  | cons cp rest ih =>
    by_cases h : cp.fired = true <;>
      simp [firedCount, List.filter_cons, h, List.length_cons] <;>
        simpa [firedCount] using ih

/-- C1 (amended): across one `download` call the `on_usable` sender is
invoked 0 or 1 times; it fires exactly at the first successful download
attempt after which the state is `Usable` but not `Complete` (when the
call reaches such an attempt with the sender still present); when the
state first becomes `Usable` only at the attempt where it also becomes
`Complete`, or without any successful attempt, the sender is never
invoked. -/
theorem download_usable_signal {σ : Type} (M : Machine σ)
    (phases : Nat → PhaseScript σ) (fuel : Nat) (s : σ) (armed : Bool) :
    ((download M phases fuel s armed).2.2.map fun cp => cp.fired) =
      markFirst armed ((download M phases fuel s armed).2.2.map obsOf) ∧
    firedCount (download M phases fuel s armed).2.2 ≤ if armed then 1 else 0 := by
  obtain ⟨h1, h2⟩ := downloadLoop_trace M phases fuel 0 s armed
  simp only [download]
  refine ⟨h1, ?_⟩
  rw [firedCount_eq_filter, h1]
  exact markFirst_at_most_one _ armed

/-- C1 counterexample: with the sender present, a run whose first
successful download attempt leaves the state simultaneously `Usable` and
`Complete` returns at the completeness check with the sender never
invoked, although `is_ready(Usable)` did hold after a successful
attempt — so the signal is not fired "exactly once the first time
usable holds after a successful download attempt". -/
theorem download_usable_unfired_counterexample :
    (download bothReadyMachine bothReadyPhases 1 false true).2.2 =
      [{ complete := true, usable := true, fired := false }] ∧
    firedCount (download bothReadyMachine bothReadyPhases 1 false true).2.2 = 0 ∧
    (download bothReadyMachine bothReadyPhases 1 false true).1 = .ok true false :=
  ⟨rfl, rfl, rfl⟩

/-- Helper: a stalled attempt loop runs through all remaining attempts
and ends the phase with `Ok((state, Some(CantAdvanceState)))`. -/
theorem attemptLoop_stalled {σ : Type} (M : Machine σ)
    (ev : Nat → AttemptEvent σ) :
    ∀ (remaining i : Nat) (s : σ) (armed : Bool),
      attemptsStall M ev i remaining s = true →
      ∃ s', (attemptLoop M ev i remaining s armed).1 = .ret (.ok s' true) := by
  intro remaining
  induction remaining with
  | zero =>
    intro i s armed h
    exact ⟨s, rfl⟩
  | succ remaining ih =>
    intro i s armed h
    simp only [attemptsStall] at h
    simp only [attemptLoop]
    by_cases hcond : 0 < i ∧ (ev i).resetInDelay = true
    · rw [if_pos hcond] at h
      simp at h
    · rw [if_neg hcond] at h
      rw [if_neg hcond]
      rcases ho : (ev i).outcome with _ | _ | _ | step <;>
        rw [ho] at h <;> dsimp only at h ⊢
      · simp at h
      · exact ih (i + 1) s armed h
      · simp at h
      · simp only [Bool.and_eq_true, Bool.not_eq_true'] at h
        obtain ⟨⟨hc, hadv⟩, hst⟩ := h
        rw [if_neg (by simp [hc])]
        rw [if_neg (by simp [hadv])]
        exact ih (i + 1) (step s) _ hst

/-- C2: if, within one phase of `download`, every attempt in the retry
schedule completes without the state becoming `Complete`, without
`can_advance()` becoming true, and without the reset deadline elapsing,
then `download` returns `Ok((state, Some(Error::CantAdvanceState)))`,
handing the current state back together with the error. -/
theorem download_retry_exhaustion {σ : Type} (M : Machine σ)
    (phases : Nat → PhaseScript σ) (fuel : Nat) (s₀ : σ) (armed : Bool)
    (n : Nat) (s₁ : σ)
    (hdl : M.dl_config s₀ = .ok n)
    (hload : (phases 0).loadOnce s₀ = .ok s₁)
    (hadv : M.can_advance s₁ = false)
    (hcomp : M.is_ready s₁ .Complete = false)
    (hstall : attemptsStall M (phases 0).events 0 n s₁ = true) :
    ∃ s', (download M phases (fuel + 1) s₀ armed).1 = .ok s' true := by
  obtain ⟨s', hs'⟩ := attemptLoop_stalled M (phases 0).events n 0 s₁ armed hstall
  refine ⟨s', ?_⟩
  simp only [download, downloadLoop, runPhase, hdl, hload]
  rw [if_neg (by simp [hadv]), if_neg (by simp [hcomp])]
  rcases hal : attemptLoop M (phases 0).events 0 n s₁ armed with ⟨stp, armed', tr⟩
  rw [hal] at hs'
  dsimp only at hs'
  subst hs'
  rfl

/-- Witness for `download_retry_exhaustion`: the never-ready,
never-advancing machine exhausts its three attempts and `download` hands
the state back with `CantAdvanceState`. -/
theorem download_retry_exhaustion_witness :
    ∃ s', (download stallMachine stallPhases 1 () false).1 = .ok s' true :=
  download_retry_exhaustion stallMachine stallPhases 0 () false 3 ()
    rfl rfl rfl rfl rfl

end Bootstrap
